import Mathlib

/-!
Shallow embedding of the core of the Ready Trader Go matching engine
(`ready_trader_go/`): the price-time-priority order book, the competitor
account, the unhedged-lots monitor, the message-frequency limiter and the
relevant parts of the per-competitor state machine.  Python integers are
modelled as `Int`, Python floats as `ℚ`, Python `dict`s as association
lists, and `None`-returning / raising paths as `Option`.  Time stamps are
omitted where the source merely forwards them to listeners.
-/

namespace RTG

/-- Python's `round` (banker's rounding, round-half-to-even) on a rational. -/
def pyRound (q : ℚ) : Int :=
  if q - ⌊q⌋ < 1/2 then ⌊q⌋
  else if 1/2 < q - ⌊q⌋ then ⌊q⌋ + 1
  else if ⌊q⌋ % 2 = 0 then ⌊q⌋ else ⌊q⌋ + 1

/-- `Instrument` from `types.py`: `FUTURE = 0`, `ETF = 1`. -/
inductive Instrument where
  | future
  | etf
deriving DecidableEq, Repr

/-- `Side` from `types.py`: `SELL = 0`, `BUY = 1`; `ASK`/`A` alias `SELL`
and `BID`/`B` alias `BUY`. -/
inductive Side where
  | sell
  | buy
deriving DecidableEq, Repr

/-- `Lifespan` from `types.py`: `FILL_AND_KILL = 0`, `GOOD_FOR_DAY = 1`. -/
inductive Lifespan where
  | fillAndKill
  | goodForDay
deriving DecidableEq, Repr

/-! ### Association lists (Python `dict`) -/

/-- Lookup in an association list (`d[k]` / `k in d`). -/
def alookup {α : Type} (m : List (Int × α)) (k : Int) : Option α :=
  match m with
  | [] => none
  | (k', v) :: rest => if k = k' then some v else alookup rest k

/-- Lookup with a default (`defaultdict` access). -/
def alookupD {α : Type} (m : List (Int × α)) (k : Int) (d : α) : α :=
  (alookup m k).getD d

/-- Store `d[k] = v`: replace the existing binding or append a new one. -/
def aset {α : Type} (m : List (Int × α)) (k : Int) (v : α) : List (Int × α) :=
  match m with
  | [] => [(k, v)]
  | (k', v') :: rest => if k = k' then (k, v) :: rest else (k', v') :: aset rest k v

/-- Delete `del d[k]`.  A `dict` binds each key at most once, so removing
every binding of `k` coincides with deleting its sole binding. -/
def aerase {α : Type} (m : List (Int × α)) (k : Int) : List (Int × α) :=
  match m with
  | [] => []
  | (k', v') :: rest => if k = k' then aerase rest k else (k', v') :: aerase rest k

/-! ### Sorted price lists (`bisect` / `insort_left`) -/

/-- `insort_left(l, x)`: insert `x` before the first element `≥ x`
(equivalent to the bisect-based insertion on a sorted list). -/
def insortLeft (l : List Int) (x : Int) : List Int :=
  match l with
  | [] => [x]
  | y :: ys => if x ≤ y then x :: y :: ys else y :: insortLeft ys x

/-- `bisect(l, x)` (bisect_right): index after the last element `≤ x`
(equivalent to the binary search on a sorted list). -/
def bisectRight (l : List Int) (x : Int) : Nat :=
  match l with
  | [] => 0
  | y :: ys => if x < y then 0 else bisectRight ys x + 1

/-- `l.pop(bisect(l, x) - 1)`: used by `remove_volume_from_level` to delete
the entry for a price from a sorted price list. -/
def popBisect (l : List Int) (x : Int) : List Int :=
  l.eraseIdx (bisectRight l x - 1)

/-! ### UnhedgedLots (`unhedged_lots.py`)

The `asyncio` timer handle is abstracted to a `Bool` that is `true` exactly
while an uncancelled, unexpired timer is outstanding; `call_later` sets it,
`cancel` clears it. -/

def MAX_UNHEDGED_LOTS : Int := 10

structure UnhedgedLots where
  relative_position : Int
  timerActive : Bool
deriving DecidableEq, Repr

/-- `UnhedgedLots.__init__`. -/
def UnhedgedLots.init : UnhedgedLots := ⟨0, false⟩

/-- `UnhedgedLots.apply_position_delta(delta)`.  Besides the new state it
reports whether this call started a timer and whether it cancelled one. -/
def UnhedgedLots.apply_position_delta (u : UnhedgedLots) (delta : Int) :
    UnhedgedLots × Bool × Bool :=
  let newRel := u.relative_position + delta
  if delta > 0 then
    let cancelled : Bool :=
      decide (u.relative_position < -MAX_UNHEDGED_LOTS ∧ -MAX_UNHEDGED_LOTS ≤ newRel)
    let started : Bool :=
      decide (newRel > MAX_UNHEDGED_LOTS ∧ MAX_UNHEDGED_LOTS ≥ u.relative_position)
    let active := if started then true else if cancelled then false else u.timerActive
    (⟨newRel, active⟩, started, cancelled)
  else if delta < 0 then
    let cancelled : Bool :=
      decide (u.relative_position > MAX_UNHEDGED_LOTS ∧ MAX_UNHEDGED_LOTS ≥ newRel)
    let started : Bool :=
      decide (newRel < -MAX_UNHEDGED_LOTS ∧ -MAX_UNHEDGED_LOTS ≤ u.relative_position)
    let active := if started then true else if cancelled then false else u.timerActive
    (⟨newRel, active⟩, started, cancelled)
  else
    (⟨newRel, u.timerActive⟩, false, false)

/-- The relative position is inside the tolerated band `[-10, 10]`. -/
def inBand (r : Int) : Prop := -MAX_UNHEDGED_LOTS ≤ r ∧ r ≤ MAX_UNHEDGED_LOTS

instance (r : Int) : Decidable (inBand r) := by unfold inBand; infer_instance

/-! ### FrequencyLimiter (`limiter.py`) -/

/-- `sys.float_info.epsilon` for IEEE-754 doubles. -/
def floatEpsilon : ℚ := 1 / 2 ^ 52

structure FrequencyLimiter where
  events : List ℚ
  interval : ℚ
  limit : Int
  value : Int
deriving DecidableEq, Repr

/-- The drop test of the `while` loop in `check_event`:
`(first - window_start) <= ((first if first > window_start else window_start) * epsilon)`. -/
def dropTest (windowStart first : ℚ) : Bool :=
  decide (first - windowStart ≤ (if first > windowStart then first else windowStart) * floatEpsilon)

/-- The `while` loop of `check_event`: pop leading events passing the drop
test, decrementing the counter.  Reading `events[0]` from an empty deque
raises in the source; that is modelled as `none`. -/
def dropLoop (windowStart : ℚ) : List ℚ → Int → Option (List ℚ × Int)
  | [], _ => none
  | f :: rest, value =>
    if dropTest windowStart f then dropLoop windowStart rest (value - 1)
    else some (f :: rest, value)

/-- `FrequencyLimiter.check_event(now)`. -/
def FrequencyLimiter.check_event (l : FrequencyLimiter) (now : ℚ) :
    Option (FrequencyLimiter × Bool) :=
  let value := l.value + 1
  let events := l.events ++ [now]
  let windowStart := now - l.interval
  match dropLoop windowStart events value with
  | none => none
  | some (events', value') =>
    some ({ l with events := events', value := value' }, decide (value' > l.limit))

/-! ### CompetitorAccount (`account.py`) -/

structure CompetitorAccount where
  account_balance : Int
  buy_volume : Int
  etf_clamp : ℚ
  etf_position : Int
  future_position : Int
  max_drawdown : Int
  max_profit : Int
  profit_or_loss : Int
  sell_volume : Int
  tick_size : Int
  total_fees : Int
deriving DecidableEq, Repr

/-- `CompetitorAccount.__init__(tick_size, etf_clamp)` (tick size already in
integer cents). -/
def CompetitorAccount.init (tick_size : Int) (etf_clamp : ℚ) : CompetitorAccount :=
  ⟨0, 0, etf_clamp, 0, 0, 0, 0, 0, 0, tick_size, 0⟩

/-- `CompetitorAccount.transact(instrument, side, price, volume, fee)`. -/
def CompetitorAccount.transact (a : CompetitorAccount) (instrument : Instrument)
    (side : Side) (price : ℚ) (volume : Int) (fee : Int) : CompetitorAccount :=
  let a :=
    if side = Side.sell then
      { a with account_balance := a.account_balance + pyRound (price * volume) }
    else
      { a with account_balance := a.account_balance - pyRound (price * volume) }
  let a := { a with account_balance := a.account_balance - fee,
                    total_fees := a.total_fees + fee }
  if instrument = Instrument.future then
    if side = Side.sell then { a with future_position := a.future_position - volume }
    else { a with future_position := a.future_position + volume }
  else
    if side = Side.sell then
      { a with sell_volume := a.sell_volume + volume,
               etf_position := a.etf_position - volume }
    else
      { a with buy_volume := a.buy_volume + volume,
               etf_position := a.etf_position + volume }

/-- The tick-rounded clamp width computed inside `CompetitorAccount.update`:
`delta = round(etf_clamp × future_price)`, then `delta -= delta % tick_size`. -/
def clampDelta (a : CompetitorAccount) (future_price : Int) : Int :=
  pyRound (a.etf_clamp * future_price)
    - pyRound (a.etf_clamp * future_price) % a.tick_size

/-- The clamped ETF mark computed inside `CompetitorAccount.update`:
`clip(etf_price, future_price ± delta)` via the two comparisons of the
source. -/
def clampedEtf (a : CompetitorAccount) (future_price etf_price : Int) : Int :=
  if etf_price < future_price - clampDelta a future_price then
    future_price - clampDelta a future_price
  else if etf_price > future_price + clampDelta a future_price then
    future_price + clampDelta a future_price
  else etf_price

/-- `CompetitorAccount.update(future_price, etf_price)`. -/
def CompetitorAccount.update (a : CompetitorAccount) (future_price etf_price : Int) :
    CompetitorAccount :=
  let pnl := a.account_balance + a.future_position * future_price
    + a.etf_position * clampedEtf a future_price etf_price
  let a1 := { a with profit_or_loss := pnl }
  let a2 :=
    if a1.profit_or_loss > a1.max_profit then { a1 with max_profit := a1.profit_or_loss }
    else a1
  if a2.max_profit - a2.profit_or_loss > a2.max_drawdown then
    { a2 with max_drawdown := a2.max_profit - a2.profit_or_loss }
  else a2

/-! ### Order book (`order_book.py`)

Orders are mutable Python objects aliased between the book's level deques
and the competitor's live-order map; functionally, every operation returns
the updated order value and also rewrites the copy held in the level queue
(keyed by `client_order_id`).  Listener callbacks are recorded as a list of
`BookEvent`s carrying the post-mutation order value. -/

structure Order where
  client_order_id : Int
  instrument : Instrument
  lifespan : Lifespan
  side : Side
  price : Int
  remaining_volume : Int
  total_fees : Int
  volume : Int
deriving DecidableEq, Repr

/-- `Order.__init__`: remaining volume starts at the full volume, fees at 0. -/
def Order.init (client_order_id : Int) (instrument : Instrument) (lifespan : Lifespan)
    (side : Side) (price volume : Int) : Order :=
  ⟨client_order_id, instrument, lifespan, side, price, volume, 0, volume⟩

/-- Listener callbacks of `IOrderListener`, recorded as events. -/
inductive BookEvent where
  | amended (o : Order) (volumeRemoved : Int)
  | cancelled (o : Order) (volumeRemoved : Int)
  | placed (o : Order)
  | filled (o : Order) (price volume fee : Int)
deriving DecidableEq, Repr

structure OrderBook where
  instrument : Instrument
  maker_fee : ℚ
  taker_fee : ℚ
  /-- `__ask_prices`: the *negated* ask prices, kept sorted ascending. -/
  askPrices : List Int
  /-- `__bid_prices`: the bid prices, kept sorted ascending. -/
  bidPrices : List Int
  /-- `__ask_ticks` (`defaultdict(int)`). -/
  askTicks : List (Int × Int)
  /-- `__bid_ticks` (`defaultdict(int)`). -/
  bidTicks : List (Int × Int)
  /-- `__last_traded_price`. -/
  lastTraded : Option Int
  /-- `__levels`: price → FIFO deque of resting orders. -/
  levels : List (Int × List Order)
  /-- `__total_volumes`: price → cached aggregate remaining volume. -/
  totalVolumes : List (Int × Int)
deriving DecidableEq, Repr

/-- `OrderBook.__init__(instrument, maker_fee, taker_fee)`. -/
def OrderBook.init (instrument : Instrument) (maker_fee taker_fee : ℚ) : OrderBook :=
  ⟨instrument, maker_fee, taker_fee, [], [], [], [], none, [], []⟩

/-- `OrderBook.last_traded_price()`. -/
def OrderBook.last_traded_price (b : OrderBook) : Option Int := b.lastTraded

/-- `OrderBook.midpoint_price()`: `(bid_prices[-1] + -ask_prices[-1]) / 2.0`
when both sides are populated, `None` otherwise. -/
def OrderBook.midpoint_price (b : OrderBook) : Option ℚ :=
  match b.bidPrices.getLast?, b.askPrices.getLast? with
  | some bb, some na => some (((bb : ℚ) + -(na : ℚ)) / 2)
  | _, _ => none

/-- Rewrite the level queue entry whose id matches `o` (the functional image
of mutating the aliased `Order` object in place). -/
def OrderBook.updateOrderInLevel (b : OrderBook) (price : Int) (o : Order) : OrderBook :=
  match alookup b.levels price with
  | none => b
  | some q =>
    let q' := q.map fun x => if x.client_order_id = o.client_order_id then o else x
    { b with levels := aset b.levels price q' }

/-- `OrderBook.remove_volume_from_level(price, volume, side)`.  The source
indexes `__total_volumes[price]` directly (a `KeyError` on an absent price
is unreachable: callers only pass populated prices); an absent price leaves
the book unchanged here. -/
def OrderBook.remove_volume_from_level (b : OrderBook) (price volume : Int)
    (side : Side) : OrderBook :=
  match alookup b.totalVolumes price with
  | none => b
  | some tv =>
    if tv = volume then
      let b := { b with levels := aerase b.levels price,
                        totalVolumes := aerase b.totalVolumes price }
      if side = Side.sell then { b with askPrices := popBisect b.askPrices (-price) }
      else { b with bidPrices := popBisect b.bidPrices price }
    else
      { b with totalVolumes := aset b.totalVolumes price (tv - volume) }

/-- `OrderBook.amend(now, order, new_volume)`. -/
def OrderBook.amend (b : OrderBook) (o : Order) (new_volume : Int) :
    OrderBook × Order × List BookEvent :=
  if o.remaining_volume > 0 then
    let fill_volume := o.volume - o.remaining_volume
    let diff := o.volume - (if new_volume < fill_volume then fill_volume else new_volume)
    let b := b.remove_volume_from_level o.price diff o.side
    let o' := { o with volume := o.volume - diff,
                       remaining_volume := o.remaining_volume - diff }
    let b := b.updateOrderInLevel o.price o'
    (b, o', [BookEvent.amended o' diff])
  else (b, o, [])

/-- `OrderBook.cancel(now, order)`. -/
def OrderBook.cancel (b : OrderBook) (o : Order) :
    OrderBook × Order × List BookEvent :=
  if o.remaining_volume > 0 then
    let b := b.remove_volume_from_level o.price o.remaining_volume o.side
    let remaining := o.remaining_volume
    let o' := { o with remaining_volume := 0 }
    let b := b.updateOrderInLevel o.price o'
    (b, o', [BookEvent.cancelled o' remaining])
  else (b, o, [])

/-- `OrderBook.place(now, order)`. -/
def OrderBook.place (b : OrderBook) (o : Order) : OrderBook × List BookEvent :=
  let price := o.price
  let b :=
    if alookup b.levels price = none then
      let b := { b with levels := aset b.levels price [],
                        totalVolumes := aset b.totalVolumes price 0 }
      if o.side = Side.sell then { b with askPrices := insortLeft b.askPrices (-price) }
      else { b with bidPrices := insortLeft b.bidPrices price }
    else b
  let q := alookupD b.levels price []
  let tv := alookupD b.totalVolumes price 0
  let b := { b with levels := aset b.levels price (q ++ [o]),
                    totalVolumes := aset b.totalVolumes price (tv + o.remaining_volume) }
  (b, [BookEvent.placed o])

/-- The inner `while` loop of `OrderBook.trade_level`: match the aggressor
against the FIFO queue at one price.  Returns the surviving queue, the
aggressor's remaining volume, the level's new total volume, and the passive
fill events in order.  Zero-remaining front orders are popped; an empty
queue with positive total is unreachable (the source would raise) and
returns unchanged accumulators. -/
def tradeQueue (maker_fee : ℚ) (best_price : Int) :
    List Order → Int → Int → List Order × Int × Int × List BookEvent
  | queue, remaining, total =>
    if h : remaining > 0 ∧ total > 0 then
      match queue with
      | [] => ([], remaining, total, [])
      | o :: rest =>
        if hz : o.remaining_volume ≤ 0 then
          tradeQueue maker_fee best_price rest remaining total
        else
          let volume := if remaining < o.remaining_volume then remaining
                        else o.remaining_volume
          let fee := pyRound ((best_price : ℚ) * (volume : ℚ) * maker_fee)
          let o' := { o with remaining_volume := o.remaining_volume - volume,
                             total_fees := o.total_fees + fee }
          let r := tradeQueue maker_fee best_price (o' :: rest) (remaining - volume)
                     (total - volume)
          (r.1, r.2.1, r.2.2.1, BookEvent.filled o' best_price volume fee :: r.2.2.2)
    else (queue, remaining, total, [])
termination_by queue remaining _ => (queue.length, remaining.toNat)
decreasing_by
  · simp only [List.length_cons]
    exact Prod.Lex.left _ _ (Nat.lt_succ_self _)
  · simp only [List.length_cons]
    apply Prod.Lex.right
    obtain ⟨h1, h2⟩ := h
    split <;> omega

/-- `OrderBook.trade_level(now, order, best_price)`. -/
def OrderBook.trade_level (b : OrderBook) (o : Order) (best_price : Int) :
    OrderBook × Order × List BookEvent :=
  let queue := alookupD b.levels best_price []
  let total := alookupD b.totalVolumes best_price 0
  let r := tradeQueue b.maker_fee best_price queue o.remaining_volume total
  let b := { b with levels := aset b.levels best_price r.1,
                    totalVolumes := aset b.totalVolumes best_price r.2.2.1 }
  let traded := o.remaining_volume - r.2.1
  let b :=
    if o.side = Side.buy then
      let t := aset b.askTicks best_price (alookupD b.askTicks best_price 0 + traded)
      { b with askTicks := t }
    else
      let t := aset b.bidTicks best_price (alookupD b.bidTicks best_price 0 + traded)
      { b with bidTicks := t }
  let fee := pyRound ((best_price : ℚ) * (traded : ℚ) * b.taker_fee)
  let o' := { o with remaining_volume := r.2.1, total_fees := o.total_fees + fee }
  let b := { b with lastTraded := some best_price }
  (b, o', r.2.2.2 ++ [BookEvent.filled o' best_price traded fee])

/-- The `while` loop of `OrderBook.trade_bid`: walk the best ask levels.
`fuel` bounds the iteration count; callers supply `askPrices.length + 1`,
which the loop (popping one price per continued iteration) never exhausts. -/
def OrderBook.tradeBidLoop (b : OrderBook) (o : Order) : Nat → OrderBook × Order × List BookEvent
  | 0 => (b, o, [])
  | fuel + 1 =>
    match b.askPrices.getLast? with
    | none => (b, o, [])
    | some na =>
      let best_ask := -na
      if o.remaining_volume > 0 ∧ best_ask ≤ o.price ∧ alookupD b.totalVolumes best_ask 0 > 0 then
        let (b', o', evs) := b.trade_level o best_ask
        if alookupD b'.totalVolumes best_ask 0 = 0 then
          let b'' := { b' with levels := aerase b'.levels best_ask,
                               totalVolumes := aerase b'.totalVolumes best_ask,
                               askPrices := b'.askPrices.dropLast }
          let r := b''.tradeBidLoop o' fuel
          (r.1, r.2.1, evs ++ r.2.2)
        else
          let r := b'.tradeBidLoop o' fuel
          (r.1, r.2.1, evs ++ r.2.2)
      else (b, o, [])

/-- The `while` loop of `OrderBook.trade_ask`: walk the best bid levels. -/
def OrderBook.tradeAskLoop (b : OrderBook) (o : Order) : Nat → OrderBook × Order × List BookEvent
  | 0 => (b, o, [])
  | fuel + 1 =>
    match b.bidPrices.getLast? with
    | none => (b, o, [])
    | some best_bid =>
      if o.remaining_volume > 0 ∧ best_bid ≥ o.price ∧ alookupD b.totalVolumes best_bid 0 > 0 then
        let (b', o', evs) := b.trade_level o best_bid
        if alookupD b'.totalVolumes best_bid 0 = 0 then
          let b'' := { b' with levels := aerase b'.levels best_bid,
                               totalVolumes := aerase b'.totalVolumes best_bid,
                               bidPrices := b'.bidPrices.dropLast }
          let r := b''.tradeAskLoop o' fuel
          (r.1, r.2.1, evs ++ r.2.2)
        else
          let r := b'.tradeAskLoop o' fuel
          (r.1, r.2.1, evs ++ r.2.2)
      else (b, o, [])

/-- `OrderBook.trade_ask(now, order)` (entered with a non-empty bid side). -/
def OrderBook.trade_ask (b : OrderBook) (o : Order) : OrderBook × Order × List BookEvent :=
  b.tradeAskLoop o (b.bidPrices.length + 1)

/-- `OrderBook.trade_bid(now, order)` (entered with a non-empty ask side). -/
def OrderBook.trade_bid (b : OrderBook) (o : Order) : OrderBook × Order × List BookEvent :=
  b.tradeBidLoop o (b.askPrices.length + 1)

/-- `OrderBook.insert(now, order)`. -/
def OrderBook.insert (b : OrderBook) (o : Order) : OrderBook × Order × List BookEvent :=
  let (b, o, evs) :=
    if o.side = Side.sell then
      match b.bidPrices.getLast? with
      | some bb => if o.price ≤ bb then b.trade_ask o else (b, o, [])
      | none => (b, o, [])
    else
      match b.askPrices.getLast? with
      | some na => if o.price ≥ -na then b.trade_bid o else (b, o, [])
      | none => (b, o, [])
  if o.remaining_volume > 0 then
    if o.lifespan = Lifespan.fillAndKill then
      let remaining := o.remaining_volume
      let o' := { o with remaining_volume := 0 }
      (b, o', evs ++ [BookEvent.cancelled o' remaining])
    else
      let (b', evs') := b.place o
      (b', o, evs ++ evs')
  else (b, o, evs)

/-- The walk of `OrderBook.try_trade` over one side: `prices` is the list of
actual prices best-first (`-ask_prices[i]` for a buy, `bid_prices[i]` for a
sell, walking `i` from the end), `test` the limit-price comparison. -/
def tryTradeWalk (totals : List (Int × Int)) (test : Int → Bool) (volume : Int) :
    List Int → Int → Int → Int × Int
  | [], total_volume, total_value => (total_volume, total_value)
  | p :: rest, total_volume, total_value =>
    if total_volume < volume ∧ p ≠ 0 ∧ test p then
      let available := alookupD totals p 0
      let required := volume - total_volume
      let weight := if required ≤ available then required else available
      tryTradeWalk totals test volume rest (total_volume + weight)
        (total_value + weight * p)
    else (total_volume, total_value)

/-- `OrderBook.try_trade(side, limit_price, volume)`: non-mutating dry run.
Returns `(filled_volume, average_price)`; the Python floor division
`total_value // total_volume` is `Int.fdiv`. -/
def OrderBook.try_trade (b : OrderBook) (side : Side) (limit_price volume : Int) :
    Int × Int :=
  let (total_volume, total_value) :=
    if side = Side.sell then
      tryTradeWalk b.totalVolumes (fun p => decide (p ≥ limit_price)) volume
        b.bidPrices.reverse 0 0
    else
      tryTradeWalk b.totalVolumes (fun p => decide (p ≤ limit_price)) volume
        (b.askPrices.reverse.map (fun np => -np)) 0 0
  (total_volume, if total_volume > 0 then Int.fdiv total_value total_volume else 0)

/-! ### Competitor fragments (`competitor.py`) -/

/-- The position bookkeeping of `Competitor.on_order_filled` (an ETF fill):
`apply_position_delta(volume if order.side == Side.BUY else -volume)`
followed by `account.transact(Instrument.ETF, side, price, volume, fee)`. -/
def onOrderFilledPositions (acc : CompetitorAccount) (u : UnhedgedLots)
    (side : Side) (price volume fee : Int) : CompetitorAccount × UnhedgedLots :=
  let u' := (u.apply_position_delta (if side = Side.buy then volume else -volume)).1
  let acc' := acc.transact Instrument.etf side (price : ℚ) volume fee
  (acc', u')

/-- The position bookkeeping of `Competitor.on_hedge_message` for a traded
hedge (`volume_traded > 0`):
`apply_position_delta(volume_traded if side_ == Side.BID else -volume_traded)`
(`Side.BID` aliases `Side.BUY`) followed by
`account.transact(Instrument.FUTURE, side_, average_price, volume_traded, 0)`. -/
def onHedgeMessagePositions (acc : CompetitorAccount) (u : UnhedgedLots)
    (side : Side) (average_price volume_traded : Int) :
    CompetitorAccount × UnhedgedLots :=
  let u' := (u.apply_position_delta
    (if side = Side.buy then volume_traded else -volume_traded)).1
  let acc' := acc.transact Instrument.future side (average_price : ℚ) volume_traded 0
  (acc', u')

/-- Outcome of `Competitor.on_amend_message`: send an error reply, forward
the amend to the ETF book, or fall through with no action at all. -/
inductive AmendOutcome where
  | error (message : String)
  | bookAmend (client_order_id new_volume : Int)
  | ignore
deriving DecidableEq, Repr

/-- The validation logic of `Competitor.on_amend_message(now, client_order_id,
volume)`, with the competitor state abstracted to its last-seen client order
id and its live-order map. -/
def on_amend_message (last_client_order_id : Int) (orders : List (Int × Order))
    (client_order_id volume : Int) : AmendOutcome :=
  if client_order_id > last_client_order_id then
    AmendOutcome.error "out-of-order client_order_id in amend message"
  else
    match alookup orders client_order_id with
    | some order =>
      if volume > order.volume then
        AmendOutcome.error "amend operation would increase order volume"
      else AmendOutcome.bookAmend client_order_id volume
    | none => AmendOutcome.ignore

/-- The Future mark-to-market anchor of `Competitor.on_order_filled`:
`self.future_book.last_traded_price() or round(self.future_book.midpoint_price())`.
Python's `or` falls through on a falsy (zero or `None`) left operand, and
`round(None)` raises; an undefined result is `none`. -/
def futureAnchor (b : OrderBook) : Option Int :=
  match b.last_traded_price with
  | some p => if p ≠ 0 then some p else (b.midpoint_price).map pyRound
  | none => (b.midpoint_price).map pyRound

/-! ### Helper lemmas -/

theorem alookup_aset_self {α : Type} (m : List (Int × α)) (k : Int) (v : α) :
    alookup (aset m k v) k = some v := by
  induction m with
  | nil => simp [aset, alookup]
  | cons kv rest ih =>
    obtain ⟨k', v'⟩ := kv
    by_cases h : k = k' <;> simp [aset, alookup, h, ih]

theorem alookup_aset_ne {α : Type} (m : List (Int × α)) (k k' : Int) (v : α)
    (h : k' ≠ k) : alookup (aset m k v) k' = alookup m k' := by
  induction m with
  | nil => simp [aset, alookup, h]
  | cons kv rest ih =>
    obtain ⟨k₀, v₀⟩ := kv
    by_cases hk : k = k₀
    · subst hk; simp [aset, alookup, h]
    · by_cases hk' : k' = k₀ <;> simp [aset, alookup, hk, hk', ih]

theorem aset_eq_self {α : Type} (m : List (Int × α)) (k : Int) (v : α)
    (h : alookup m k = some v) : aset m k v = m := by
  induction m with
  | nil => simp [alookup] at h
  | cons kv rest ih =>
    obtain ⟨k', v'⟩ := kv
    by_cases hk : k = k'
    · subst hk
      simp [alookup] at h
      simp [aset, h]
    · simp [alookup, hk] at h
      simp [aset, hk, ih h]

theorem alookup_aerase_self {α : Type} (m : List (Int × α)) (k : Int) :
    alookup (aerase m k) k = none := by
  induction m with
  | nil => simp [aerase, alookup]
  | cons kv rest ih =>
    obtain ⟨k', v'⟩ := kv
    by_cases h : k = k'
    · subst h; simp [aerase, ih]
    · simp [aerase, alookup, h, ih]

theorem list_map_id_of {α : Type} (l : List α) (f : α → α)
    (h : ∀ x ∈ l, f x = x) : l.map f = l := by
  induction l with
  | nil => rfl
  | cons x xs ih =>
    simp only [List.map_cons, h x (by simp)]
    rw [ih fun y hy => h y (by simp [hy])]

theorem getLast?_eq_none_iff_nil {α : Type} (l : List α) :
    l.getLast? = none ↔ l = [] := by
  cases l with
  | nil => simp
  | cons x xs => simp [List.getLast?_cons]

/-- A passed drop test on the last element keeps `dropWhile` of an appended
singleton non-empty. -/
theorem dropWhile_append_singleton_ne_nil {α : Type} (p : α → Bool) (l : List α)
    (x : α) (hx : p x = false) : (l ++ [x]).dropWhile p ≠ [] := by
  induction l with
  | nil => simp [List.dropWhile, hx]
  | cons y ys ih =>
    by_cases hy : p y <;> simp [List.dropWhile, hy, ih]

/-! ## C6 — amend targeting no live order

`Competitor.on_amend_message` with an in-range (`≤` last-seen) client order
id that matches no live order falls off the end of the function: no error
reply, no book call, no state change. -/

/-- Outcome carries an error reply. -/
def AmendOutcome.isError : AmendOutcome → Bool
  | AmendOutcome.error _ => true
  | _ => false

/-- C6 counterexample: with last-seen id 5 and no live orders, an amend for
id 3 is silently ignored — contrary to the claim, no ERROR message is
produced. -/
theorem c6_counterexample :
    on_amend_message 5 [] 3 1 = AmendOutcome.ignore ∧
    (on_amend_message 5 [] 3 1).isError = false := by
  constructor <;> rfl

/-- C6 (amended): an amend request whose client order id is `≤` the
last-seen id but targets no live order of the competitor is silently
dropped: no error reply is sent, nothing is forwarded to the book, and no
competitor state changes.  The session continues. -/
theorem c6_amend_unknown_order_ignored
    (last_client_order_id : Int) (orders : List (Int × Order))
    (client_order_id volume : Int)
    (hle : client_order_id ≤ last_client_order_id)
    (hmiss : alookup orders client_order_id = none) :
    on_amend_message last_client_order_id orders client_order_id volume =
      AmendOutcome.ignore := by
  unfold on_amend_message
  rw [if_neg (by omega)]
  rw [hmiss]

/-- C6 witness: the amended theorem applied at last-seen id 5, empty order
map, amend id 3 volume 1. -/
theorem c6_witness :
    on_amend_message 5 [] 3 1 = AmendOutcome.ignore :=
  c6_amend_unknown_order_ignored 5 [] 3 1 (by decide) (by rfl)

/-! ## C10 — Future mark anchor totality

`Competitor.on_order_filled` computes
`last_traded_price() or round(midpoint_price())`.  Python's `or` also falls
through when the last traded price is `0` (a falsy int), so a book whose
last trade printed at price 0 with one side empty still reaches the
undefined `round(None)` branch: the claimed precondition is not exact. -/

/-- A Future book with a (price-zero) last traded price and no resting
asks.  Price 0 passes the competitor's tick-multiple check, so a zero
last-traded print is not excluded by validation. -/
def c10Book : OrderBook :=
  { OrderBook.init Instrument.future 0 0 with
    lastTraded := some 0,
    bidPrices := [10000],
    levels := [(10000, [Order.init 1 Instrument.future Lifespan.goodForDay Side.buy 10000 5])],
    totalVolumes := [(10000, 5)] }

/-- C10 counterexample: `c10Book` has a last traded price, yet the anchor
computation is undefined (it reaches `round(None)`), refuting the claimed
"total exactly under the precondition". -/
theorem c10_counterexample :
    (c10Book.last_traded_price).isSome = true ∧ futureAnchor c10Book = none := by
  constructor <;> rfl

/-- C10 (amended): the anchor `last_traded_price() or
round(midpoint_price())` is defined exactly when the Future book has a
*non-zero* last traded price or has at least one resting bid and one
resting ask; under that precondition the `round(None)` branch is
unreachable. -/
theorem c10_future_anchor_total_iff (b : OrderBook) :
    (futureAnchor b).isSome = true ↔
      ((∃ p, b.last_traded_price = some p ∧ p ≠ 0) ∨
        (b.bidPrices ≠ [] ∧ b.askPrices ≠ [])) := by
  have hmid : (b.midpoint_price).isSome = true ↔ (b.bidPrices ≠ [] ∧ b.askPrices ≠ []) := by
    unfold OrderBook.midpoint_price
    rcases hb : b.bidPrices.getLast? with _ | bb <;>
      rcases ha : b.askPrices.getLast? with _ | na <;>
        simp_all [getLast?_eq_none_iff_nil] <;>
          simp [← getLast?_eq_none_iff_nil, hb, ha]
  unfold futureAnchor OrderBook.last_traded_price
  rcases hl : b.lastTraded with _ | p
  · simpa [hl, Option.isSome_map] using hmid
  · by_cases hp : p = 0
    · subst hp
      simpa [Option.isSome_map] using hmid
    · simp [hp]

/-! ## C1 — what `relative_position` tracks

Both the ETF-fill path and the hedge path pass `+volume` for a BUY and
`-volume` for a SELL to `apply_position_delta`, while `transact` adds
`+volume` to `future_position` for a BUY hedge.  The monitor therefore
tracks `etf_position + future_position` (offsetting a long ETF position
with a SELL hedge drives it to zero), not `etf_position − future_position`
as claimed. -/

theorem apply_position_delta_rel (u : UnhedgedLots) (d : Int) :
    (u.apply_position_delta d).1.relative_position = u.relative_position + d := by
  unfold UnhedgedLots.apply_position_delta
  split_ifs <;> rfl

/-- C1 counterexample: from a flat account, a BUY hedge of 1 lot raises
`future_position` by 1 and also raises `relative_position` by 1 — the delta
passed to the monitor is the future-position change itself, not its
negation. -/
theorem c1_counterexample :
    ((onHedgeMessagePositions (CompetitorAccount.init 100 1) UnhedgedLots.init
        Side.buy 10000 1).2.relative_position = 1) ∧
    ((onHedgeMessagePositions (CompetitorAccount.init 100 1) UnhedgedLots.init
        Side.buy 10000 1).1.future_position = 1) ∧
    ¬((onHedgeMessagePositions (CompetitorAccount.init 100 1) UnhedgedLots.init
        Side.buy 10000 1).2.relative_position = -1) := by
  refine ⟨rfl, rfl, by decide⟩

/-- C1 (amended): `relative_position` always equals
`etf_position + future_position`.  For every ETF fill the delta passed to
`apply_position_delta` equals the change in `etf_position`, and for every
hedge fill the delta passed equals the change in `future_position` itself
(the same sign), so hedging on the side *opposite* the ETF trade reduces
the imbalance. -/
theorem c1_relative_tracks_etf_plus_future
    (acc : CompetitorAccount) (u : UnhedgedLots) (side : Side)
    (price volume fee average_price volume_traded : Int) :
    ((onOrderFilledPositions acc u side price volume fee).2.relative_position
        - u.relative_position
      = (onOrderFilledPositions acc u side price volume fee).1.etf_position
        - acc.etf_position) ∧
    ((onHedgeMessagePositions acc u side average_price volume_traded).2.relative_position
        - u.relative_position
      = (onHedgeMessagePositions acc u side average_price volume_traded).1.future_position
        - acc.future_position) ∧
    (u.relative_position = acc.etf_position + acc.future_position →
      ((onOrderFilledPositions acc u side price volume fee).2.relative_position
        = (onOrderFilledPositions acc u side price volume fee).1.etf_position
          + (onOrderFilledPositions acc u side price volume fee).1.future_position) ∧
      ((onHedgeMessagePositions acc u side average_price volume_traded).2.relative_position
        = (onHedgeMessagePositions acc u side average_price volume_traded).1.etf_position
          + (onHedgeMessagePositions acc u side average_price volume_traded).1.future_position)) := by
  unfold onOrderFilledPositions onHedgeMessagePositions CompetitorAccount.transact
  cases side <;>
    simp [apply_position_delta_rel, Instrument, Side] <;>
      omega

/-- C1 witness: the amended theorem at a flat account, BUY side, volume 2. -/
theorem c1_witness :
    (onOrderFilledPositions (CompetitorAccount.init 100 1) UnhedgedLots.init
        Side.buy 10000 2 0).2.relative_position
      = (onOrderFilledPositions (CompetitorAccount.init 100 1) UnhedgedLots.init
          Side.buy 10000 2 0).1.etf_position
        + (onOrderFilledPositions (CompetitorAccount.init 100 1) UnhedgedLots.init
          Side.buy 10000 2 0).1.future_position :=
  ((c1_relative_tracks_etf_plus_future (CompetitorAccount.init 100 1)
      UnhedgedLots.init Side.buy 10000 2 0 10000 2).2.2 (by decide)).1

/-! ## C7 — unhedged-lots breach timer

The claimed biconditional — started exactly on first leaving `[-10, 10]`,
cancelled exactly on returning into it — fails on a band-crossing delta:
the source then fires *both* the cancel and a fresh `call_later`, resetting
the 60-second countdown although the position neither first leaves nor
returns into the band. -/

/-- C7 counterexample: from relative position −12 with the timer
outstanding (the run-invariant state) a delta of +25 jumps across the band
to +13: the call both cancels the timer and starts a new one, although the
new position is not inside `[-10, 10]` (so it does not "return into" the
band) and the old position was already outside it (so it does not "first
leave" it). -/
theorem c7_band_crossing_counterexample :
    ((⟨-12, true⟩ : UnhedgedLots).timerActive
      = decide (¬inBand (⟨-12, true⟩ : UnhedgedLots).relative_position)) ∧
    ((⟨-12, true⟩ : UnhedgedLots).apply_position_delta 25).2.2 = true ∧
    ((⟨-12, true⟩ : UnhedgedLots).apply_position_delta 25).2.1 = true ∧
    ¬inBand (-12 : Int) ∧ ¬inBand ((-12 : Int) + 25) := by
  decide

/-- C7 (amended): under the run invariant "the timer is outstanding exactly
when the relative position is outside `[-10, 10]`" (true initially),
`apply_position_delta` (a) adds the delta to the relative position and
(b) preserves the invariant; (c) the timer is started exactly when the
position moves, in the delta's direction, from at-or-inside the band's far
bound to beyond it — leaving the band outward or crossing it entirely — and
(d) is cancelled exactly when it moves from beyond the near bound back to
at-or-inside it — returning into the band or crossing it entirely (a
band-crossing delta both cancels and restarts the 60-second countdown);
consequently (e) from inside the band the timer starts exactly when the new
position leaves the band and nothing is cancelled, (f) from outside the
band a move into the band cancels and starts nothing, and (g) a delta
landing at or inside `±10` never starts the timer. -/
theorem c7_unhedged_timer_characterization (u : UnhedgedLots) (delta : Int)
    (hinv : u.timerActive = decide (¬inBand u.relative_position)) :
    (u.apply_position_delta delta).1.relative_position
      = u.relative_position + delta ∧
    (u.apply_position_delta delta).1.timerActive
      = decide (¬inBand (u.relative_position + delta)) ∧
    ((u.apply_position_delta delta).2.1 = true ↔
      ((delta > 0 ∧ u.relative_position + delta > MAX_UNHEDGED_LOTS
          ∧ u.relative_position ≤ MAX_UNHEDGED_LOTS) ∨
       (delta < 0 ∧ u.relative_position + delta < -MAX_UNHEDGED_LOTS
          ∧ -MAX_UNHEDGED_LOTS ≤ u.relative_position))) ∧
    ((u.apply_position_delta delta).2.2 = true ↔
      ((delta > 0 ∧ u.relative_position < -MAX_UNHEDGED_LOTS
          ∧ -MAX_UNHEDGED_LOTS ≤ u.relative_position + delta) ∨
       (delta < 0 ∧ u.relative_position > MAX_UNHEDGED_LOTS
          ∧ u.relative_position + delta ≤ MAX_UNHEDGED_LOTS))) ∧
    (inBand u.relative_position →
      ((u.apply_position_delta delta).2.1 = true ↔
        ¬inBand (u.relative_position + delta)) ∧
      (u.apply_position_delta delta).2.2 = false) ∧
    (¬inBand u.relative_position → inBand (u.relative_position + delta) →
      (u.apply_position_delta delta).2.2 = true ∧
      (u.apply_position_delta delta).2.1 = false) ∧
    (inBand (u.relative_position + delta) →
      (u.apply_position_delta delta).2.1 = false) := by
  unfold inBand MAX_UNHEDGED_LOTS at hinv
  unfold UnhedgedLots.apply_position_delta inBand MAX_UNHEDGED_LOTS
  rcases lt_trichotomy delta 0 with hd | hd | hd
  · rw [if_neg (by omega), if_pos hd]
    refine ⟨rfl, ?_, ?_⟩
    · by_cases hs : u.relative_position + delta < -10 ∧ -10 ≤ u.relative_position <;>
        by_cases hc : u.relative_position > 10 ∧ 10 ≥ u.relative_position + delta <;>
          simp [hs, hc] <;>
          first
            | exact (decide_eq_true (by omega)).symm
            | exact (decide_eq_false (by omega)).symm
            | (rw [hinv]; exact decide_eq_decide.mpr (by omega))
            | (rw [hinv, ← decide_not, ← Bool.decide_or]
               exact decide_eq_decide.mpr (by omega))
            | omega
    · simp only [decide_eq_true_eq, decide_eq_false_iff_not]
      omega
  · subst hd
    rw [if_neg (by omega), if_neg (by omega)]
    refine ⟨rfl, ?_, ?_⟩
    · rw [hinv]; exact decide_eq_decide.mpr (by omega)
    · first
        | (simp only [Bool.false_eq_true, false_iff, iff_false, not_not,
             eq_self_iff_true, and_true, true_and]
           omega)
        | (simp
           omega)
        | simp
  · rw [if_pos hd]
    refine ⟨rfl, ?_, ?_⟩
    · by_cases hs : u.relative_position + delta > 10 ∧ 10 ≥ u.relative_position <;>
        by_cases hc : u.relative_position < -10 ∧ -10 ≤ u.relative_position + delta <;>
          simp [hs, hc] <;>
          first
            | exact (decide_eq_true (by omega)).symm
            | exact (decide_eq_false (by omega)).symm
            | (rw [hinv]; exact decide_eq_decide.mpr (by omega))
            | (rw [hinv, ← decide_not, ← Bool.decide_or]
               exact decide_eq_decide.mpr (by omega))
            | omega
    · simp only [decide_eq_true_eq, decide_eq_false_iff_not]
      omega

/-- C7 witness: the characterization applied at the band-crossing input
(position −12, timer outstanding, delta +25): the call cancels the old
timer, starts a fresh one, and the invariant holds at the new position. -/
theorem c7_characterization_witness :
    ((⟨-12, true⟩ : UnhedgedLots).apply_position_delta 25).1.relative_position
      = (-12 : Int) + 25 ∧
    ((⟨-12, true⟩ : UnhedgedLots).apply_position_delta 25).1.timerActive
      = decide (¬inBand ((-12 : Int) + 25)) ∧
    ((⟨-12, true⟩ : UnhedgedLots).apply_position_delta 25).2.1 = true ∧
    ((⟨-12, true⟩ : UnhedgedLots).apply_position_delta 25).2.2 = true := by
  have h := c7_unhedged_timer_characterization ⟨-12, true⟩ 25 (by decide)
  exact ⟨h.1, h.2.1, h.2.2.1.mpr (by decide), h.2.2.2.1.mpr (by decide)⟩

/-! ## C9 — P&L update with the ETF clamp -/

theorem pyRound_nonneg (q : ℚ) (hq : 0 ≤ q) : 0 ≤ pyRound q := by
  have hf : (0 : Int) ≤ ⌊q⌋ := Int.floor_nonneg.mpr hq
  unfold pyRound
  split_ifs <;> omega

/-- C9: `CompetitorAccount.update(future_price, etf_price)` marks the ETF at
`clip(etf_price, future_price ± delta)` with
`delta = round(etf_clamp × future_price) − (round(etf_clamp × future_price) mod tick_size)`
and sets `profit_or_loss = account_balance + future_position × future_price
+ etf_position × clamped`; the clamped mark always stays inside
`[future_price − delta, future_price + delta]`, so an ETF print outside the
band cannot move the P&L beyond the band edge. -/
theorem c9_update_marks_clamped_etf (a : CompetitorAccount)
    (future_price etf_price : Int)
    (hclamp : 0 ≤ a.etf_clamp) (hf : 0 ≤ future_price) (ht : 0 < a.tick_size) :
    (a.update future_price etf_price).profit_or_loss
      = a.account_balance + a.future_position * future_price
        + a.etf_position * (clampedEtf a future_price etf_price) ∧
    future_price - clampDelta a future_price ≤ clampedEtf a future_price etf_price ∧
    clampedEtf a future_price etf_price ≤ future_price + clampDelta a future_price := by
  have hd0 : (0 : Int) ≤ pyRound (a.etf_clamp * future_price) :=
    pyRound_nonneg _ (mul_nonneg hclamp (by exact_mod_cast hf))
  have hdelta : 0 ≤ clampDelta a future_price := by
    unfold clampDelta
    have h1 := Int.ediv_add_emod (pyRound (a.etf_clamp * future_price)) a.tick_size
    have h2 : 0 ≤ a.tick_size * (pyRound (a.etf_clamp * future_price) / a.tick_size) :=
      mul_nonneg ht.le (Int.ediv_nonneg hd0 ht.le)
    omega
  refine ⟨?_, ?_, ?_⟩
  · simp only [CompetitorAccount.update]
    split_ifs <;> rfl
  · unfold clampedEtf
    split_ifs <;> omega
  · unfold clampedEtf
    split_ifs <;> omega

/-- C9 witness: the update theorem at a concrete account (tick 100, clamp
0.002, long 3 ETF and short 1 Future) with Future mark 10000 and an ETF
print far above the band. -/
theorem c9_witness :
    ((({ CompetitorAccount.init 100 (1/500) with
          etf_position := 3, future_position := -1,
          account_balance := 250 }).update 10000 99999).profit_or_loss
      = 250 + (-1) * 10000
        + 3 * (clampedEtf { CompetitorAccount.init 100 (1/500) with
            etf_position := 3, future_position := -1,
            account_balance := 250 } 10000 99999)) ∧
    (clampedEtf { CompetitorAccount.init 100 (1/500) with
        etf_position := 3, future_position := -1,
        account_balance := 250 } 10000 99999 = 10000) := by
  have h := c9_update_marks_clamped_etf
    { CompetitorAccount.init 100 (1/500) with
      etf_position := 3, future_position := -1, account_balance := 250 }
    10000 99999 (by norm_num [CompetitorAccount.init])
    (by norm_num) (by norm_num [CompetitorAccount.init])
  refine ⟨h.1, ?_⟩
  norm_num [clampedEtf, clampDelta, pyRound, CompetitorAccount.init]

/-! ## C4 — amend semantics -/

theorem updateOrderInLevel_totalVolumes (b : OrderBook) (p : Int) (o : Order) :
    (b.updateOrderInLevel p o).totalVolumes = b.totalVolumes := by
  unfold OrderBook.updateOrderInLevel
  cases alookup b.levels p <;> rfl

theorem remove_volume_from_level_totalVolumes (b : OrderBook) (p v : Int)
    (side : Side) (tv : Int) (htv : alookup b.totalVolumes p = some tv) :
    alookup (b.remove_volume_from_level p v side).totalVolumes p
      = if tv = v then none else some (tv - v) := by
  unfold OrderBook.remove_volume_from_level
  rw [htv]
  by_cases h1 : tv = v
  · simp only [h1, if_true, eq_self_iff_true]
    cases side <;> simp [alookup_aerase_self]
  · simp only [h1, if_false]
    simp [alookup_aset_self, h1]

/-- C4: for an order with remaining volume, `amend(now, order, new_volume)`
removes exactly `d = volume − max(new_volume, fill_volume)` from the
order's price level (deleting the level when it empties), decrements both
`volume` and `remaining_volume` by `d`, notifies the listener with `d`, and
clamps a `new_volume` below the fill volume to the fill volume — zeroing
the residual like a cancel; when `remaining_volume = 0` the call is a
no-op. -/
theorem c4_amend_clamps_and_removes (b : OrderBook) (o : Order)
    (new_volume tv : Int) :
    (o.remaining_volume > 0 →
      alookup b.totalVolumes o.price = some tv →
      ((b.amend o new_volume).2.1.volume
          = o.volume - (o.volume - max new_volume (o.volume - o.remaining_volume)) ∧
        (b.amend o new_volume).2.1.remaining_volume
          = o.remaining_volume
            - (o.volume - max new_volume (o.volume - o.remaining_volume)) ∧
        (b.amend o new_volume).2.2
          = [BookEvent.amended (b.amend o new_volume).2.1
              (o.volume - max new_volume (o.volume - o.remaining_volume))] ∧
        alookup (b.amend o new_volume).1.totalVolumes o.price
          = (if tv = o.volume - max new_volume (o.volume - o.remaining_volume)
             then none
             else some (tv - (o.volume - max new_volume (o.volume - o.remaining_volume)))) ∧
        (new_volume < o.volume - o.remaining_volume →
          (b.amend o new_volume).2.1.remaining_volume = 0))) ∧
    (o.remaining_volume = 0 → b.amend o new_volume = (b, o, [])) := by
  constructor
  · intro hrem htv
    have hmax : (if new_volume < o.volume - o.remaining_volume
        then o.volume - o.remaining_volume else new_volume)
        = max new_volume (o.volume - o.remaining_volume) := by
      rw [max_def]; split_ifs <;> omega
    have hstep : b.amend o new_volume =
        ((b.remove_volume_from_level o.price
            (o.volume - max new_volume (o.volume - o.remaining_volume))
            o.side).updateOrderInLevel o.price
          { o with
            volume := o.volume
              - (o.volume - max new_volume (o.volume - o.remaining_volume)),
            remaining_volume := o.remaining_volume
              - (o.volume - max new_volume (o.volume - o.remaining_volume)) },
          { o with
            volume := o.volume
              - (o.volume - max new_volume (o.volume - o.remaining_volume)),
            remaining_volume := o.remaining_volume
              - (o.volume - max new_volume (o.volume - o.remaining_volume)) },
          [BookEvent.amended
            { o with
              volume := o.volume
                - (o.volume - max new_volume (o.volume - o.remaining_volume)),
              remaining_volume := o.remaining_volume
                - (o.volume - max new_volume (o.volume - o.remaining_volume)) }
            (o.volume - max new_volume (o.volume - o.remaining_volume))]) := by
      simp only [OrderBook.amend, if_pos hrem, hmax]
    rw [hstep]
    have htot : alookup ((b.remove_volume_from_level o.price
        (o.volume - max new_volume (o.volume - o.remaining_volume))
        o.side).updateOrderInLevel o.price
          { o with
            volume := o.volume
              - (o.volume - max new_volume (o.volume - o.remaining_volume)),
            remaining_volume := o.remaining_volume
              - (o.volume - max new_volume (o.volume - o.remaining_volume)) }).totalVolumes
          o.price
        = (if tv = o.volume - max new_volume (o.volume - o.remaining_volume)
           then none
           else some (tv - (o.volume - max new_volume (o.volume - o.remaining_volume)))) := by
      rw [updateOrderInLevel_totalVolumes]
      exact remove_volume_from_level_totalVolumes b o.price _ o.side tv htv
    exact ⟨rfl, rfl, rfl, htot, fun hlt => by simp; omega⟩
  · intro hzero
    simp [OrderBook.amend, hzero]

/-- C4 witness: a half-filled order (volume 5, remaining 2) amended down to
1, below its fill volume 3: the residual 2 is removed from the level and
the order finishes with remaining 0. -/
theorem c4_witness :
    (({ OrderBook.init Instrument.etf 0 0 with
        bidPrices := [10000],
        levels := [(10000,
          [{ Order.init 4 Instrument.etf Lifespan.goodForDay Side.buy 10000 5 with
             remaining_volume := 2 }])],
        totalVolumes := [(10000, 2)] } : OrderBook).amend
        { Order.init 4 Instrument.etf Lifespan.goodForDay Side.buy 10000 5 with
          remaining_volume := 2 } 1).2.1.remaining_volume = 0 := by
  have h := (c4_amend_clamps_and_removes
    { OrderBook.init Instrument.etf 0 0 with
      bidPrices := [10000],
      levels := [(10000,
        [{ Order.init 4 Instrument.etf Lifespan.goodForDay Side.buy 10000 5 with
           remaining_volume := 2 }])],
      totalVolumes := [(10000, 2)] }
    { Order.init 4 Instrument.etf Lifespan.goodForDay Side.buy 10000 5 with
      remaining_volume := 2 } 1 2).1 (by decide) (by decide)
  exact h.2.2.2.2 (by decide)

/-! ## C5 — amend-down to current remaining -/

theorem remove_zero_volume_noop (b : OrderBook) (p : Int) (side : Side) (tv : Int)
    (htv : alookup b.totalVolumes p = some tv) (h0 : tv ≠ 0) :
    b.remove_volume_from_level p 0 side = b := by
  unfold OrderBook.remove_volume_from_level
  simp only [htv]
  rw [if_neg h0, sub_zero, aset_eq_self _ _ _ htv]

/-- The partially-filled order of the C5 counterexample: volume 2, one lot
already filled, one remaining, resting at price 100. -/
def c5Order : Order :=
  { Order.init 7 Instrument.etf Lifespan.goodForDay Side.buy 100 2 with
    remaining_volume := 1 }

/-- A book holding only `c5Order`. -/
def c5Book : OrderBook :=
  { OrderBook.init Instrument.etf 0 0 with
    bidPrices := [100],
    levels := [(100, [c5Order])],
    totalVolumes := [(100, 1)] }

/-- C5 counterexample: amending the half-filled `c5Order` down to its
current remaining volume 1 is *not* a state change-free operation — the
fill volume is clamped in, the residual lot is removed, the order's
remaining volume drops from 1 to 0 and the price level disappears. -/
theorem c5_counterexample :
    (c5Book.amend c5Order c5Order.remaining_volume).2.1.remaining_volume = 0 ∧
    c5Order.remaining_volume = 1 ∧
    (c5Book.amend c5Order c5Order.remaining_volume).1.bidPrices = [] ∧
    c5Book.bidPrices = [100] := by
  refine ⟨by decide, by decide, by decide, by decide⟩

/-- C5 (amended): amending a live order down to its current remaining
volume leaves every piece of state unchanged — the order's `volume`,
`remaining_volume` and `total_fees`, the level's aggregate volume, the
level queue and the sorted price lists — *provided the order is unfilled*
(`remaining_volume = volume`); in general the amend removes
`min(remaining_volume, fill_volume)` lots, which is zero exactly in the
unfilled case.  The listener is still notified, with a removed amount
of 0. -/
theorem c5_amend_down_unfilled_noop (b : OrderBook) (o : Order) (tv : Int)
    (hunfilled : o.remaining_volume = o.volume)
    (hrem : 0 < o.remaining_volume)
    (htv : alookup b.totalVolumes o.price = some tv)
    (htv0 : tv ≠ 0)
    (hq : ∀ x ∈ alookupD b.levels o.price [],
      x.client_order_id = o.client_order_id → x = o) :
    b.amend o o.remaining_volume = (b, o, [BookEvent.amended o 0]) := by
  have hfill : o.volume - o.remaining_volume = 0 := by omega
  have hdiff : o.volume
      - (if o.remaining_volume < o.volume - o.remaining_volume
         then o.volume - o.remaining_volume else o.remaining_volume) = 0 := by
    rw [if_neg (by omega)]; omega
  simp only [OrderBook.amend, if_pos hrem, hdiff]
  rw [remove_zero_volume_noop b o.price o.side tv htv htv0]
  have ho : { o with volume := o.volume - 0,
                     remaining_volume := o.remaining_volume - 0 } = o := by
    cases o; simp
  rw [ho]
  have hupd : b.updateOrderInLevel o.price o = b := by
    rcases hl : alookup b.levels o.price with _ | q
    · unfold OrderBook.updateOrderInLevel
      rw [hl]
    · have hmap : (q.map fun x =>
          if x.client_order_id = o.client_order_id then o else x) = q := by
        apply list_map_id_of
        intro x hx
        by_cases hid : x.client_order_id = o.client_order_id
        · rw [if_pos hid]
          exact (hq x (by simp [alookupD, hl, hx]) hid).symm
        · rw [if_neg hid]
      unfold OrderBook.updateOrderInLevel
      simp only [hl, hmap, aset_eq_self _ _ _ hl]
  rw [hupd]

/-- C5 witness: the amended theorem at a one-order book whose resting order
is unfilled (volume 3 = remaining 3): the amend to 3 changes nothing. -/
theorem c5_witness :
    ({ OrderBook.init Instrument.etf 0 0 with
        bidPrices := [100],
        levels := [(100, [Order.init 9 Instrument.etf Lifespan.goodForDay Side.buy 100 3])],
        totalVolumes := [(100, 3)] } : OrderBook).amend
      (Order.init 9 Instrument.etf Lifespan.goodForDay Side.buy 100 3)
      (Order.init 9 Instrument.etf Lifespan.goodForDay Side.buy 100 3).remaining_volume
    = ({ OrderBook.init Instrument.etf 0 0 with
          bidPrices := [100],
          levels := [(100, [Order.init 9 Instrument.etf Lifespan.goodForDay Side.buy 100 3])],
          totalVolumes := [(100, 3)] },
        Order.init 9 Instrument.etf Lifespan.goodForDay Side.buy 100 3,
        [BookEvent.amended (Order.init 9 Instrument.etf Lifespan.goodForDay Side.buy 100 3) 0]) :=
  c5_amend_down_unfilled_noop _ _ 3 (by decide) (by decide) (by decide) (by decide)
    (by decide)

/-! ## C8 — frequency limiter window -/

theorem dropLoop_eq_dropWhile (ws : ℚ) (l : List ℚ) (v : Int)
    (hne : l.dropWhile (dropTest ws) ≠ []) :
    dropLoop ws l v = some (l.dropWhile (dropTest ws),
      v - l.length + (l.dropWhile (dropTest ws)).length) := by
  induction l generalizing v with
  | nil => simp at hne
  | cons f rest ih =>
    by_cases h : dropTest ws f
    · rw [List.dropWhile_cons_of_pos h] at hne ⊢
      unfold dropLoop
      rw [if_pos h, ih (v - 1) hne]
      congr 1
      ext : 1
      · rfl
      · simp only [List.length_cons]
        push_cast
        omega
    · rw [List.dropWhile_cons_of_neg h]
      unfold dropLoop
      rw [if_neg h]
      congr 2
      simp only [List.length_cons]
      push_cast
      omega

/-- C8: under the run invariant `value = events.length` (true initially and
preserved by every call) and provided the freshly appended event itself
fails the drop test (so the source's `events[0]` access cannot run off the
deque), `check_event(now)` appends `now`, drops exactly the leading events
passing the relative-epsilon window test, leaves `value` equal to the
retained event count, and returns `true` iff that count exceeds the limit —
in particular it returns `false` when the retained count equals `limit` and
`true` when it equals `limit + 1`. -/
theorem c8_check_event_window (l : FrequencyLimiter) (now : ℚ)
    (hval : l.value = l.events.length)
    (hlast : dropTest (now - l.interval) now = false) :
    l.check_event now = some
      ({ l with
          events := (l.events ++ [now]).dropWhile (dropTest (now - l.interval)),
          value := ((l.events ++ [now]).dropWhile (dropTest (now - l.interval))).length },
        decide ((((l.events ++ [now]).dropWhile (dropTest (now - l.interval))).length : Int)
          > l.limit)) ∧
    ((((l.events ++ [now]).dropWhile (dropTest (now - l.interval))).length : Int) = l.limit →
      decide ((((l.events ++ [now]).dropWhile (dropTest (now - l.interval))).length : Int)
        > l.limit) = false) ∧
    ((((l.events ++ [now]).dropWhile (dropTest (now - l.interval))).length : Int)
        = l.limit + 1 →
      decide ((((l.events ++ [now]).dropWhile (dropTest (now - l.interval))).length : Int)
        > l.limit) = true) := by
  have hne : (l.events ++ [now]).dropWhile (dropTest (now - l.interval)) ≠ [] :=
    dropWhile_append_singleton_ne_nil _ _ _ hlast
  refine ⟨?_, ?_, ?_⟩
  · simp only [FrequencyLimiter.check_event]
    rw [dropLoop_eq_dropWhile _ _ _ hne]
    have hv : l.value + 1 - ((l.events ++ [now]).length : Int)
        + (((l.events ++ [now]).dropWhile (dropTest (now - l.interval))).length : Int)
        = ((l.events ++ [now]).dropWhile (dropTest (now - l.interval))).length := by
      simp only [List.length_append, List.length_singleton]
      push_cast
      omega
    simp only [hv]
  · intro h
    rw [decide_eq_false_iff_not]
    omega
  · intro h
    rw [decide_eq_true_eq]
    omega

/-- C8 witness: interval 1, limit 3, two prior events at 3/5 and 7/10; a
third event at 4/5 keeps all three in the window and does not breach. -/
theorem c8_witness :
    (FrequencyLimiter.check_event ⟨[3/5, 7/10], 1, 3, 2⟩ (4/5)) = some
      (⟨[3/5, 7/10, 4/5], 1, 3, 3⟩, false) := by
  have h := (c8_check_event_window ⟨[3/5, 7/10], 1, 3, 2⟩ (4/5) (by rfl)
    (by norm_num [dropTest, floatEpsilon])).1
  rw [h]
  norm_num [dropTest, floatEpsilon, List.dropWhile]

/-! ## C3 — try_trade dry-run pricing

`try_trade` only reads the book: the embedding returns just the
`(filled_volume, average_price)` pair, so the book value is untouched by
construction, matching the non-mutating source. -/

/-- The greedy per-level take: walking best-first over `(price, available)`
pairs, each level contributes `min(available, remaining requirement)`. -/
def greedyWeights (volume : Int) : List (Int × Int) → List (Int × Int)
  | [] => []
  | (p, a) :: rest =>
    (p, min a (max volume 0)) :: greedyWeights (volume - min a (max volume 0)) rest

theorem greedyWeights_nonpos (l : List (Int × Int)) (req : Int)
    (hreq : req ≤ 0) (ha : ∀ pa ∈ l, 0 ≤ pa.2) :
    greedyWeights req l = l.map (fun pa => (pa.1, 0)) := by
  induction l generalizing req with
  | nil => rfl
  | cons pa rest ih =>
    obtain ⟨p, a⟩ := pa
    have ha0 : 0 ≤ a := ha (p, a) (by simp)
    have hw : min a (max req 0) = 0 := by omega
    simp only [greedyWeights, hw, List.map_cons]
    rw [sub_zero, ih req hreq fun x hx => ha x (by simp [hx])]

theorem greedyWeights_sum (l : List (Int × Int)) (req : Int)
    (ha : ∀ pa ∈ l, 0 ≤ pa.2) :
    ((greedyWeights req l).map (·.2)).sum
      = min (max req 0) ((l.map (·.2)).sum) := by
  induction l generalizing req with
  | nil =>
    simp only [greedyWeights, List.map_nil, List.sum_nil]
    omega
  | cons pa rest ih =>
    obtain ⟨p, a⟩ := pa
    have ha0 : 0 ≤ a := ha (p, a) (by simp)
    have hrest : 0 ≤ ((rest.map (·.2)).sum) :=
      List.sum_nonneg fun x hx => by
        obtain ⟨pa', hpa', rfl⟩ := List.mem_map.mp hx
        exact ha pa' (by simp [hpa'])
    simp only [greedyWeights, List.map_cons, List.sum_cons]
    rw [ih _ fun x hx => ha x (by simp [hx])]
    omega

theorem tryTradeWalk_eq_takeWhile (totals : List (Int × Int)) (test : Int → Bool)
    (volume : Int) :
    ∀ (prices : List Int) (tv tval : Int),
      tryTradeWalk totals test volume prices tv tval
        = tryTradeWalk totals test volume
            (prices.takeWhile fun p => decide (p ≠ 0) && test p) tv tval := by
  intro prices
  induction prices with
  | nil => intro tv tval; rfl
  | cons p rest ih =>
    intro tv tval
    by_cases hq : (decide (p ≠ 0) && test p) = true
    · rw [List.takeWhile_cons, if_pos hq]
      have hq' : p ≠ 0 ∧ test p = true := by
        simpa [Bool.and_eq_true, decide_eq_true_eq] using hq
      by_cases htv : tv < volume
      · unfold tryTradeWalk
        rw [if_pos ⟨htv, hq'.1, hq'.2⟩, if_pos ⟨htv, hq'.1, hq'.2⟩]
        exact ih _ _
      · unfold tryTradeWalk
        rw [if_neg (by tauto), if_neg (by tauto)]
    · rw [List.takeWhile_cons, if_neg hq]
      have hq' : ¬(p ≠ 0 ∧ test p = true) := by
        simpa [Bool.and_eq_true, decide_eq_true_eq] using hq
      unfold tryTradeWalk
      rw [if_neg (by tauto)]

theorem tryTradeWalk_all_pass (totals : List (Int × Int)) (test : Int → Bool)
    (volume : Int) :
    ∀ (prices : List Int) (tv tval : Int),
      (∀ p ∈ prices, p ≠ 0 ∧ test p = true) →
      (∀ p ∈ prices, 0 ≤ alookupD totals p 0) →
      tryTradeWalk totals test volume prices tv tval
        = (tv + ((greedyWeights (volume - tv)
              (prices.map fun p => (p, alookupD totals p 0))).map (·.2)).sum,
           tval + ((greedyWeights (volume - tv)
              (prices.map fun p => (p, alookupD totals p 0))).map
                (fun pw => pw.2 * pw.1)).sum) := by
  intro prices
  induction prices with
  | nil => intro tv tval _ _; simp [tryTradeWalk, greedyWeights]
  | cons p rest ih =>
    intro tv tval hpass havail
    have hp := hpass p (by simp)
    have hap : 0 ≤ alookupD totals p 0 := havail p (by simp)
    by_cases htv : tv < volume
    · unfold tryTradeWalk
      rw [if_pos ⟨htv, hp.1, hp.2⟩]
      rw [ih (tv + (if volume - tv ≤ alookupD totals p 0 then volume - tv
            else alookupD totals p 0))
          (tval + (if volume - tv ≤ alookupD totals p 0 then volume - tv
            else alookupD totals p 0) * p)
          (fun x hx => hpass x (by simp [hx]))
          (fun x hx => havail x (by simp [hx]))]
      have hw : (if volume - tv ≤ alookupD totals p 0 then volume - tv
            else alookupD totals p 0)
          = min (alookupD totals p 0) (max (volume - tv) 0) := by
        split_ifs <;> omega
      simp only [List.map_cons, greedyWeights, List.sum_cons, hw,
        sub_add_eq_sub_sub]
      rw [Prod.mk.injEq]
      constructor <;> ring
    · unfold tryTradeWalk
      rw [if_neg (by tauto)]
      have hnn : ∀ pa ∈ ((p :: rest).map fun q => (q, alookupD totals q 0)),
          0 ≤ pa.2 := by
        intro pa hpa
        obtain ⟨q, hq, rfl⟩ := List.mem_map.mp hpa
        exact havail q hq
      rw [greedyWeights_nonpos _ _ (by omega) hnn]
      have h1 : ((((p :: rest).map fun q => (q, alookupD totals q 0)).map
          (fun pa => (pa.1, (0 : Int)))).map (·.2)).sum = 0 := by
        apply List.sum_eq_zero
        intro x hx
        simp only [List.map_map, List.mem_map, Function.comp] at hx
        obtain ⟨q, _, rfl⟩ := hx
        rfl
      have h2 : ((((p :: rest).map fun q => (q, alookupD totals q 0)).map
          (fun pa => (pa.1, (0 : Int)))).map (fun pw => pw.2 * pw.1)).sum = 0 := by
        apply List.sum_eq_zero
        intro x hx
        simp only [List.map_map, List.mem_map, Function.comp] at hx
        obtain ⟨q, _, rfl⟩ := hx
        simp
      rw [h1, h2]
      simp

theorem takeWhile_eq_filter_of_pairwise (q : Int → Bool) :
    ∀ l : List Int, l.Pairwise (fun x y => q x = false → q y = false) →
      l.takeWhile q = l.filter q := by
  intro l
  induction l with
  | nil => intro _; rfl
  | cons x xs ih =>
    intro hpw
    rcases List.pairwise_cons.mp hpw with ⟨hx, hxs⟩
    by_cases hq : q x
    · rw [List.takeWhile_cons, if_pos hq, List.filter_cons_of_pos hq, ih hxs]
    · rw [List.takeWhile_cons, if_neg hq,
        List.filter_cons_of_neg (by simpa using hq)]
      rw [List.filter_eq_nil_iff.mpr]
      intro y hy
      simp [hx y hy (by simpa using hq)]

/-- The actual ask prices of the book, best (lowest) first: the source
stores negated asks sorted ascending and walks them from the back. -/
def actualAsks (b : OrderBook) : List Int := b.askPrices.reverse.map fun np => -np

/-- The actual bid prices of the book, best (highest) first. -/
def actualBids (b : OrderBook) : List Int := b.bidPrices.reverse

/-- Modelled from the spec's description of `try_trade`: the fillable
volume is the resting volume at prices no worse than the limit, capped at
the requested volume. -/
def fillVolumeSpec (b : OrderBook) (prices : List Int) (volume : Int) : Int :=
  min volume ((prices.map fun p => alookupD b.totalVolumes p 0).sum)

/-- Modelled from the spec's description of `try_trade`: the traded value
is the sum over taken levels of `price × taken volume`, the taken volumes
being the greedy best-first takes. -/
def fillValueSpec (b : OrderBook) (prices : List Int) (volume : Int) : Int :=
  ((greedyWeights volume (prices.map fun p => (p, alookupD b.totalVolumes p 0))).map
    (fun pw => pw.2 * pw.1)).sum

theorem tryTradeWalk_characterization (totals : List (Int × Int))
    (test : Int → Bool) (volume : Int) (L : List Int)
    (hvol : 0 ≤ volume)
    (hpos : ∀ p ∈ L, 0 < p)
    (hpair : L.Pairwise fun x y => test x = false → test y = false)
    (havail : ∀ p ∈ L, 0 ≤ alookupD totals p 0) :
    tryTradeWalk totals test volume L 0 0
      = (min volume (((L.filter test).map fun p => alookupD totals p 0).sum),
         ((greedyWeights volume
            ((L.filter test).map fun p => (p, alookupD totals p 0))).map
            (fun pw => pw.2 * pw.1)).sum) := by
  have hq_pair : L.Pairwise fun x y =>
      (decide (x ≠ 0) && test x) = false → (decide (y ≠ 0) && test y) = false := by
    refine List.Pairwise.imp_of_mem ?_ hpair
    intro x y hxm hym himp hqx
    have hxne : x ≠ 0 := by have := hpos x hxm; omega
    have hyne : y ≠ 0 := by have := hpos y hym; omega
    have : test x = false := by
      rcases Bool.and_eq_false_iff.mp hqx with h | h
      · simp [hxne] at h
      · exact h
    simp [himp this]
  rw [tryTradeWalk_eq_takeWhile,
    takeWhile_eq_filter_of_pairwise _ _ hq_pair]
  have hfq : L.filter (fun p => decide (p ≠ 0) && test p) = L.filter test :=
    List.filter_congr fun a ha => by
      have := hpos a ha
      simp [show a ≠ 0 by omega]
  rw [hfq]
  rw [tryTradeWalk_all_pass _ _ _ _ _ _
    (fun p hp => by
      have hm := List.mem_filter.mp hp
      exact ⟨by have := hpos p hm.1; omega, hm.2⟩)
    (fun p hp => havail p (List.mem_filter.mp hp).1)]
  have hsum : (((L.filter test).map fun p => (p, alookupD totals p 0)).map (·.2))
      = (L.filter test).map fun p => alookupD totals p 0 := by
    rw [List.map_map]; rfl
  rw [Prod.mk.injEq]
  constructor
  · rw [sub_zero, greedyWeights_sum _ _ (fun pa hpa => by
      obtain ⟨p', hp', rfl⟩ := List.mem_map.mp hpa
      exact havail p' (List.mem_filter.mp hp').1)]
    rw [hsum]
    omega
  · rw [sub_zero, zero_add]

/-- C3: `try_trade(side, limit, volume)` performs a non-mutating dry run
(the embedding returns only the result pair, leaving the book value
untouched): for either side of a well-formed book (positive prices, sorted
price lists, non-negative level volumes), the filled volume is the
opposite-side resting volume at prices no worse than the limit capped at
the requested volume, and the average price is the floor division of the
greedy take value by the filled volume, 0 when nothing fills. -/
theorem c3_try_trade_fills_best_prices (b : OrderBook) (limit_price volume : Int)
    (hvol : 0 ≤ volume)
    (hposA : ∀ p ∈ actualAsks b, 0 < p)
    (hsortA : (actualAsks b).Pairwise (· ≤ ·))
    (havailA : ∀ p ∈ actualAsks b, 0 ≤ alookupD b.totalVolumes p 0)
    (hposB : ∀ p ∈ actualBids b, 0 < p)
    (hsortB : (actualBids b).Pairwise (fun x y => y ≤ x))
    (havailB : ∀ p ∈ actualBids b, 0 ≤ alookupD b.totalVolumes p 0) :
    (b.try_trade Side.buy limit_price volume
      = (fillVolumeSpec b ((actualAsks b).filter fun p => decide (p ≤ limit_price)) volume,
         if fillVolumeSpec b ((actualAsks b).filter fun p => decide (p ≤ limit_price)) volume > 0
         then Int.fdiv
           (fillValueSpec b ((actualAsks b).filter fun p => decide (p ≤ limit_price)) volume)
           (fillVolumeSpec b ((actualAsks b).filter fun p => decide (p ≤ limit_price)) volume)
         else 0)) ∧
    (b.try_trade Side.sell limit_price volume
      = (fillVolumeSpec b ((actualBids b).filter fun p => decide (p ≥ limit_price)) volume,
         if fillVolumeSpec b ((actualBids b).filter fun p => decide (p ≥ limit_price)) volume > 0
         then Int.fdiv
           (fillValueSpec b ((actualBids b).filter fun p => decide (p ≥ limit_price)) volume)
           (fillVolumeSpec b ((actualBids b).filter fun p => decide (p ≥ limit_price)) volume)
         else 0)) := by
  constructor
  · have hwalk := tryTradeWalk_characterization b.totalVolumes
      (fun p => decide (p ≤ limit_price)) volume (actualAsks b) hvol hposA
      (List.Pairwise.imp_of_mem (by
        intro x y _ _ hxy hf
        rw [decide_eq_false_iff_not] at *
        omega) hsortA)
      havailA
    simp only [OrderBook.try_trade, if_neg (by decide : ¬(Side.buy = Side.sell))]
    rw [show b.askPrices.reverse.map (fun np => -np) = actualAsks b from rfl] at *
    rw [hwalk]
    rfl
  · have hwalk := tryTradeWalk_characterization b.totalVolumes
      (fun p => decide (p ≥ limit_price)) volume (actualBids b) hvol hposB
      (List.Pairwise.imp_of_mem (by
        intro x y _ _ hxy hf
        rw [decide_eq_false_iff_not] at *
        omega) hsortB)
      havailB
    simp only [OrderBook.try_trade, if_pos (rfl : Side.sell = Side.sell)]
    rw [show b.bidPrices.reverse = actualBids b from rfl] at *
    rw [hwalk]
    rfl

/-- The Future book of scenario S4: resting SELL 10 @ 10000 and
SELL 5 @ 10100. -/
def c3Book : OrderBook :=
  { OrderBook.init Instrument.future 0 0 with
    askPrices := [-10100, -10000],
    levels := [(10000,
        [Order.init 101 Instrument.future Lifespan.goodForDay Side.sell 10000 10]),
      (10100,
        [Order.init 102 Instrument.future Lifespan.goodForDay Side.sell 10100 5])],
    totalVolumes := [(10000, 10), (10100, 5)] }

/-- C3 witness: the theorem applied to the S4 book — a hedge BUY 12 limit
10200 fills 12 lots at average price `floor((10×10000 + 2×10100)/12) = 10016`. -/
theorem c3_witness : c3Book.try_trade Side.buy 10200 12 = (12, 10016) := by
  have h := (c3_try_trade_fills_best_prices c3Book 10200 12 (by decide)
    (by decide) (by decide) (by decide) (by decide) (by decide) (by decide)).1
  rw [h]
  decide

/-! ## C2 — matching at the maker price with maker/taker fees -/

/-- The traded volume carried by a fill event (0 for other callbacks). -/
def evVolume : BookEvent → Int
  | BookEvent.filled _ _ v _ => v
  | _ => 0

theorem tradeQueue_fills (maker_fee : ℚ) (best_price : Int)
    (queue : List Order) (remaining total : Int) :
    (∀ ev ∈ (tradeQueue maker_fee best_price queue remaining total).2.2.2,
      ∃ o v, ev = BookEvent.filled o best_price v
        (pyRound ((best_price : ℚ) * (v : ℚ) * maker_fee))) ∧
    (tradeQueue maker_fee best_price queue remaining total).2.1
      = remaining
        - (((tradeQueue maker_fee best_price queue remaining total).2.2.2).map
            evVolume).sum := by
  induction queue, remaining, total using tradeQueue.induct maker_fee best_price with
  | case1 remaining total h =>
    rw [tradeQueue]
    simp [h]
  | case2 remaining total h o rest hz ih =>
    rw [tradeQueue]
    simp only [dif_pos h, dif_pos hz]
    exact ih
  | case3 remaining total h o rest hz volume fee o' ih =>
    rw [tradeQueue]
    simp only [dif_pos h, dif_neg hz]
    refine ⟨?_, ?_⟩
    · intro ev hev
      rcases List.mem_cons.mp hev with hhead | htail
      · exact ⟨_, _, hhead⟩
      · exact ih.1 ev htail
    · have hc := ih.2
      unfold_let volume fee o' at hc
      simp only [dite_eq_ite] at hc
      simp only [List.map_cons, List.sum_cons, evVolume]
      omega
  | case4 queue remaining total h =>
    rw [tradeQueue.eq_def]
    rcases queue with _ | ⟨o, rest⟩ <;> simp [h]

theorem trade_level_spec (b : OrderBook) (o : Order) (best_price : Int) :
    (b.trade_level o best_price).1.lastTraded = some best_price ∧
    (b.trade_level o best_price).2.2
      = (tradeQueue b.maker_fee best_price (alookupD b.levels best_price [])
          o.remaining_volume (alookupD b.totalVolumes best_price 0)).2.2.2
        ++ [BookEvent.filled (b.trade_level o best_price).2.1 best_price
            (o.remaining_volume - (b.trade_level o best_price).2.1.remaining_volume)
            (pyRound ((best_price : ℚ)
              * ((o.remaining_volume
                  - (b.trade_level o best_price).2.1.remaining_volume : Int) : ℚ)
              * b.taker_fee))] ∧
    ((tradeQueue b.maker_fee best_price (alookupD b.levels best_price [])
        o.remaining_volume (alookupD b.totalVolumes best_price 0)).2.2.2.map
          evVolume).sum
      = o.remaining_volume - (b.trade_level o best_price).2.1.remaining_volume := by
  have hcons := (tradeQueue_fills b.maker_fee best_price
    (alookupD b.levels best_price []) o.remaining_volume
    (alookupD b.totalVolumes best_price 0)).2
  refine ⟨?_, ?_, ?_⟩
  · simp only [OrderBook.trade_level]
  · simp only [OrderBook.trade_level]
    split_ifs <;> rfl
  · simp only [OrderBook.trade_level]
    omega

/-- The empty S1 book: ETF instrument, maker fee −0.0001, taker fee 0.0002. -/
def s1Book : OrderBook := OrderBook.init Instrument.etf (-1/10000) (1/5000)

/-- Trader A's order in S1: BUY 5 @ 10000 good-for-day. -/
def s1A : Order := Order.init 1 Instrument.etf Lifespan.goodForDay Side.buy 10000 5

/-- Trader B's order in S1: SELL 3 @ 9900 good-for-day. -/
def s1B : Order := Order.init 2 Instrument.etf Lifespan.goodForDay Side.sell 9900 3

/-- The S1 book after A's order rests. -/
def s1BookA : OrderBook :=
  { s1Book with
    bidPrices := [10000],
    levels := [(10000, [s1A])],
    totalVolumes := [(10000, 5)] }

/-- The S1 book after B's aggressive sell trades 3 lots at 10000. -/
def s1BookFinal : OrderBook :=
  { s1Book with
    bidPrices := [10000],
    bidTicks := [(10000, 3)],
    lastTraded := some 10000,
    levels := [(10000, [{ s1A with remaining_volume := 2, total_fees := -3 }])],
    totalVolumes := [(10000, 2)] }

set_option maxRecDepth 8000 in
/-- C2: (i) every passive fill produced by matching at a level executes at
the level's (resting/maker) price and accrues a maker fee of
`round(price × traded_volume × maker_fee)`; (ii) `trade_level` sets the
last traded price to the level price, charges the aggressor a single taker
fee `round(price × traded_volume_at_level × taker_fee)` for the level, and
the passive fill volumes sum to the aggressor's traded volume; (iii) in the
S1 scenario — empty book, A inserts BUY 5 @ 10000 GFD, B inserts SELL 3 @
9900 GFD — 3 lots trade at 10000 (the maker price, although B asked 9900),
A's order rests with remaining 2 and maker fee −3 = round(10000×3×−0.0001),
B's order is fully filled with taker fee 6 = round(10000×3×0.0002), and
`last_traded_price() = 10000`. -/
theorem c2_trades_at_maker_price_with_fees :
    (∀ (maker_fee : ℚ) (best_price : Int) (queue : List Order) (remaining total : Int),
      ∀ ev ∈ (tradeQueue maker_fee best_price queue remaining total).2.2.2,
        ∃ o v, ev = BookEvent.filled o best_price v
          (pyRound ((best_price : ℚ) * (v : ℚ) * maker_fee))) ∧
    (∀ (b : OrderBook) (o : Order) (best_price : Int),
      (b.trade_level o best_price).1.lastTraded = some best_price ∧
      (b.trade_level o best_price).2.2
        = (tradeQueue b.maker_fee best_price (alookupD b.levels best_price [])
            o.remaining_volume (alookupD b.totalVolumes best_price 0)).2.2.2
          ++ [BookEvent.filled (b.trade_level o best_price).2.1 best_price
              (o.remaining_volume - (b.trade_level o best_price).2.1.remaining_volume)
              (pyRound ((best_price : ℚ)
                * ((o.remaining_volume
                    - (b.trade_level o best_price).2.1.remaining_volume : Int) : ℚ)
                * b.taker_fee))] ∧
      ((tradeQueue b.maker_fee best_price (alookupD b.levels best_price [])
          o.remaining_volume (alookupD b.totalVolumes best_price 0)).2.2.2.map
            evVolume).sum
        = o.remaining_volume - (b.trade_level o best_price).2.1.remaining_volume) ∧
    (((s1Book.insert s1A).1.insert s1B).2.1.remaining_volume = 0 ∧
     ((s1Book.insert s1A).1.insert s1B).2.1.total_fees = 6 ∧
     ((s1Book.insert s1A).1.insert s1B).1.lastTraded = some 10000 ∧
     alookup ((s1Book.insert s1A).1.insert s1B).1.totalVolumes 10000 = some 2 ∧
     alookup ((s1Book.insert s1A).1.insert s1B).1.levels 10000
       = some [{ s1A with remaining_volume := 2, total_fees := -3 }] ∧
     ((s1Book.insert s1A).1.insert s1B).2.2
       = [BookEvent.filled { s1A with remaining_volume := 2, total_fees := -3 } 10000 3 (-3),
          BookEvent.filled { s1B with remaining_volume := 0, total_fees := 6 } 10000 3 6] ∧
     (s1Book.insert s1A).2.2 = [BookEvent.placed s1A] ∧
     (6 : Int) = pyRound ((10000 : ℚ) * 3 * (1/5000)) ∧
     (-3 : Int) = pyRound ((10000 : ℚ) * 3 * (-1/10000))) := by
  refine ⟨fun maker_fee best_price queue remaining total =>
      (tradeQueue_fills maker_fee best_price queue remaining total).1,
    fun b o best_price => trade_level_spec b o best_price, ?_⟩
  have hbs : (Side.buy = Side.sell) = False := by simp
  have hsb : (Side.sell = Side.buy) = False := by simp
  have hgf : (Lifespan.goodForDay = Lifespan.fillAndKill) = False := by simp
  have h1 : s1Book.insert s1A = (s1BookA, s1A, [BookEvent.placed s1A]) := by
    simp [s1Book, s1BookA, s1A, OrderBook.insert, OrderBook.place,
      OrderBook.init, Order.init, alookup, alookupD, aset, insortLeft,
      hbs, hsb, hgf, List.getLast?_singleton, List.getLast?_cons_cons]
  have h2 : s1BookA.insert s1B
      = (s1BookFinal, { s1B with remaining_volume := 0, total_fees := 6 },
         [BookEvent.filled { s1A with remaining_volume := 2, total_fees := -3 }
            10000 3 (-3),
          BookEvent.filled { s1B with remaining_volume := 0, total_fees := 6 }
            10000 3 6]) := by
    simp [s1Book, s1BookA, s1BookFinal, s1A, s1B, OrderBook.insert,
      OrderBook.place, OrderBook.trade_ask, OrderBook.tradeAskLoop,
      OrderBook.trade_level, tradeQueue, OrderBook.init, Order.init,
      alookup, alookupD, aset, insortLeft, hbs, hsb, hgf,
      List.getLast?_singleton, List.getLast?_cons_cons]
    norm_num [pyRound]
  have hfull : (s1Book.insert s1A).1.insert s1B
      = (s1BookFinal, { s1B with remaining_volume := 0, total_fees := 6 },
         [BookEvent.filled { s1A with remaining_volume := 2, total_fees := -3 }
            10000 3 (-3),
          BookEvent.filled { s1B with remaining_volume := 0, total_fees := 6 }
            10000 3 6]) := by
    rw [h1]
    exact h2
  refine ⟨by rw [hfull], by rw [hfull], by rw [hfull]; rfl, ?_, ?_,
    by rw [hfull], by rw [h1], ?_, ?_⟩
  · rw [hfull]
    rfl
  · rw [hfull]
    rfl
  · norm_num [pyRound]
  · norm_num [pyRound]

/-- C2 witness: the per-fill clause applied to the single passive fill of
the S1 level trade — A's fill at the maker price 10000 with maker fee −3. -/
theorem c2_witness :
    ∃ o v, BookEvent.filled { s1A with remaining_volume := 2, total_fees := -3 }
        10000 3 (-3)
      = BookEvent.filled o 10000 v
          (pyRound (((10000 : Int) : ℚ) * ((v : Int) : ℚ) * (-1/10000))) := by
  have hq : (tradeQueue (-1/10000) 10000 [s1A] 3 5).2.2.2
      = [BookEvent.filled { s1A with remaining_volume := 2, total_fees := -3 }
          10000 3 (-3)] := by
    simp [tradeQueue, s1A, Order.init]
    norm_num [pyRound]
  exact c2_trades_at_maker_price_with_fees.1 (-1/10000) 10000 [s1A] 3 5
    (BookEvent.filled { s1A with remaining_volume := 2, total_fees := -3 } 10000 3 (-3))
    (by rw [hq]; exact List.mem_singleton.mpr rfl)

end RTG
